import Mathlib

/-
Verification of the social-media-reader extraction pipeline.

Shallow embedding of the Python sources:
  * social_media_reader/utils.py      (validate_url)
  * social_media_reader/instagram.py  (_extract_images_from_html, grouping/selection stage)
  * social_media_reader/linkedin.py   (extract_linkedin_metadata, parse_paste)
  * social_media_reader/video.py      (extract_frames interval policy, transcribe_audio)
  * social_media_reader/cli.py        (detect_platform, process_url dispatch)

Strings are modelled as `List Char` (ASCII semantics for the character
classes used by the regexes); stateful I/O strategies are modelled by
passing their outcomes in explicitly and recording which strategies were
invoked.
-/

namespace SMR

/- ### Character classes and plain string scanning (the regex fragments used) -/

/-- Python `\s` whitespace class (ASCII subset, which also drives `str.strip`). -/
def isPyWs (c : Char) : Bool :=
  c = ' ' || c = '\t' || c = '\n' || c = '\r' || c = '\x0b' || c = '\x0c'

/-- Python `\w` word class (ASCII subset). -/
def isWordChar (c : Char) : Bool :=
  c.isAlphanum || c = '_'

/-- Does `pat` occur at the head of `l`? -/
def beginsWith : List Char → List Char → Bool
  | [], _ => true
  | _ :: _, [] => false
  | p :: ps, c :: cs => p = c && beginsWith ps cs

/-- Case-insensitive variant: `pat` (already lowercase) at the head of `l`. -/
def beginsWithCI : List Char → List Char → Bool
  | [], _ => true
  | _ :: _, [] => false
  | p :: ps, c :: cs => p = c.toLower && beginsWithCI ps cs

/-- Does `pat` occur as a contiguous substring of `l`?  Models `re.search`
on a pattern with no metacharacters. -/
def containsSeq (pat : List Char) : List Char → Bool
  | [] => beginsWith pat []
  | c :: cs => beginsWith pat (c :: cs) || containsSeq pat cs

/-- Python `str.strip()` (ASCII whitespace). -/
def pyStrip (l : List Char) : List Char :=
  ((l.dropWhile isPyWs).reverse.dropWhile isPyWs).reverse

/- ### utils.validate_url (utils.py lines 27-56) -/

/-- The characters urlparse accepts after the first letter of a scheme. -/
def isSchemeChar (c : Char) : Bool :=
  c.isAlpha || c.isDigit || c = '+' || c = '-' || c = '.'

/-- Split `l` at its first `':'`, returning the parts before and after it. -/
def splitAtColon : List Char → Option (List Char × List Char)
  | [] => none
  | c :: rest =>
    if c = ':' then some ([], rest)
    else
      match splitAtColon rest with
      | some (b, a) => some (c :: b, a)
      | none => none

/-- urlparse scheme splitting: a valid scheme before the first `':'` is
lowercased and removed; otherwise the whole input is the rest. -/
def parseScheme (l : List Char) : List Char × List Char :=
  match splitAtColon l with
  | none => ([], l)
  | some (before, after) =>
    match before with
    | [] => ([], l)
    | c :: cs =>
      if c.isAlpha && cs.all isSchemeChar then ((c :: cs).map Char.toLower, after)
      else ([], l)

/-- urlparse netloc: present only after a leading `//`, ending at `/`, `?` or `#`. -/
def parseNetloc (rest : List Char) : List Char :=
  match rest with
  | '/' :: '/' :: r => r.takeWhile (fun c => !(c = '/' || c = '?' || c = '#'))
  | _ => []

/-- The part of a netloc after its last `'@'` (urlparse's `rpartition('@')`). -/
def afterLastAt (l : List Char) : List Char :=
  (l.reverse.takeWhile (fun c => c ≠ '@')).reverse

/-- urlparse hostname extraction from the host info: bracketed IPv6 literal
(with brackets stripped) or everything before the first `':'`. -/
def hostFromHostinfo (h : List Char) : List Char :=
  if h.contains '[' then
    ((h.dropWhile (fun c => c ≠ '[')).drop 1).takeWhile (fun c => c ≠ ']')
  else
    h.takeWhile (fun c => c ≠ ':')

/-- `urlparse(url).hostname` (not yet lowercased), for an already stripped URL. -/
def rawHostname (u : List Char) : List Char :=
  hostFromHostinfo (afterLastAt (parseNetloc (parseScheme u).2))

/-- The `^172\.(1[6-9]|2\d|3[01])\.` private-range pattern from
`_BLOCKED_HOST_PATTERNS`. -/
def matches172Private : List Char → Bool
  | '1' :: '7' :: '2' :: '.' :: a :: b :: '.' :: _ =>
    (a = '1' && ('6' ≤ b && b ≤ '9')) ||
    (a = '2' && b.isDigit) ||
    (a = '3' && (b = '0' || b = '1'))
  | _ => false

/-- `_BLOCKED_HOST_PATTERNS`: does the (lowercased) hostname match any entry? -/
def isBlockedHost (h : List Char) : Bool :=
  h = "localhost".data ||
  beginsWith "127.".data h ||
  beginsWith "10.".data h ||
  matches172Private h ||
  beginsWith "192.168.".data h ||
  beginsWith "0.".data h ||
  beginsWith "169.254.".data h ||
  h = "[::1]".data ||
  h = "metadata.google.internal".data

/-- The `ValueError`s `validate_url` can raise, with their parameters. -/
inductive UrlError where
  | emptyUrl
  | badScheme (scheme : List Char)
  | noHostname
  | blockedHost (host : List Char)
deriving DecidableEq

/-- utils.validate_url: scheme/hostname checks and the SSRF denylist.
Raising `ValueError` is modelled as `Except.error`. -/
def validate_url (url : String) : Except UrlError String :=
  let u := pyStrip url.data
  if u = [] then .error .emptyUrl
  else
    let scheme := (parseScheme u).1
    if !(scheme = "http".data || scheme = "https".data) then .error (.badScheme scheme)
    else
      let h := rawHostname u
      if h = [] then .error .noHostname
      else
        let hn := h.map Char.toLower
        if isBlockedHost hn then .error (.blockedHost hn)
        else .ok (String.mk u)

/-- Does a `validate_url` call succeed (no exception)? -/
def urlOk : Except UrlError String → Bool
  | .ok _ => true
  | .error _ => false

end SMR

namespace SMR

/-- C7: URL validation rejects every URL whose scheme is not http or https,
every URL with no hostname, and every URL whose hostname matches the
loopback/private/link-local/cloud-metadata denylist; in particular
validate("http://169.254.169.254/x") raises and validate("https://example.com")
passes, returning the URL. -/
theorem validate_url_spec :
    (∀ url : String,
        ¬((parseScheme (pyStrip url.data)).1 = "http".data ∨
          (parseScheme (pyStrip url.data)).1 = "https".data) →
        urlOk (validate_url url) = false)
  ∧ (∀ url : String, rawHostname (pyStrip url.data) = [] →
        urlOk (validate_url url) = false)
  ∧ (∀ url : String,
        isBlockedHost ((rawHostname (pyStrip url.data)).map Char.toLower) = true →
        urlOk (validate_url url) = false)
  ∧ validate_url "http://169.254.169.254/x" =
      .error (.blockedHost "169.254.169.254".data)
  ∧ validate_url "https://example.com" = .ok "https://example.com" := by
  refine ⟨?_, ?_, ?_, by rfl, by rfl⟩
  · intro url h
    simp only [validate_url, urlOk]
    split_ifs with h1 h2 <;> simp_all
  · intro url h
    simp only [validate_url, urlOk]
    split_ifs <;> simp_all
  · intro url h
    simp only [validate_url, urlOk]
    split_ifs <;> simp_all

/-- Witness for C7: the universally quantified rejection clauses applied at
concrete URLs, discharging each hypothesis there. -/
theorem validate_url_spec_witness :
    urlOk (validate_url "ftp://example.com") = false
  ∧ urlOk (validate_url "http://") = false
  ∧ urlOk (validate_url "http://localhost/a") = false :=
  ⟨validate_url_spec.1 "ftp://example.com" (by decide),
   validate_url_spec.2.1 "http://" (by decide),
   validate_url_spec.2.2.1 "http://localhost/a" (by decide)⟩

end SMR

namespace SMR

/- ### video.extract_frames interval policy (video.py lines 118-159) -/

/-- The interval actually passed to ffmpeg by `extract_frames`:
`if duration and duration / interval > max_frames: interval = duration / max_frames`.
`duration` is `None` (probe failed) or a number; `0.0` is falsy in Python. -/
def effectiveInterval (duration : Option ℚ) (interval : ℚ) (max_frames : ℕ) : ℚ :=
  match duration with
  | none => interval
  | some d =>
    if d ≠ 0 ∧ (max_frames : ℚ) < d / interval then d / max_frames else interval

/-- Modelled from the spec: the external frame-extraction tool (`extract_frames`
collaborator, ffmpeg invoked with `fps=1/interval` and a `-frames:v max_count`
cap) returns one frame per interval over the duration, truncated to at most
`max_count` frames.  The repository shells out for this step, so the sample
count itself is not in src/. -/
def ffmpegFrameCount (duration interval : ℚ) (max_count : ℕ) : ℕ :=
  min max_count (if 0 < interval then Int.toNat (Int.ceil (duration / interval)) else 0)

/-- The number of frames an `extract_frames` call produces: ffmpeg run at the
adaptively widened interval, capped by the `-frames:v` argument. -/
def extractFramesCount (duration : Option ℚ) (interval : ℚ) (max_frames : ℕ) : ℕ :=
  ffmpegFrameCount (duration.getD 0) (effectiveInterval duration interval max_frames) max_frames

/- ### video.transcribe_audio (video.py lines 278-306) -/

/-- video.transcribe_audio, instrumented with the list of transcribers invoked.
`localResult` is what `_transcribe_with_faster_whisper` would return (`none`
models both an unavailable library and a raised exception); `geminiResult` is
what `_transcribe_with_gemini` would return.  Sizes below 1000 bytes are
treated as silent before either transcriber is consulted. -/
def transcribe_audio (file_size : ℕ) (localResult : Option String)
    (geminiResult : String) : String × List String :=
  if file_size < 1000 then ("[No audio or silent video]", [])
  else
    match localResult with
    | some t => (t, ["faster_whisper"])
    | none => (geminiResult, ["faster_whisper", "gemini"])

/- ### cli.detect_platform and cli.process_url (cli.py lines 14-27, 124-148) -/

/-- The ordered platform patterns of `detect_platform`, each as the list of
literal alternatives of its regex (every alternative is followed by `/`). -/
def platformPatterns : List (String × List String) :=
  [("instagram", ["instagram.com/", "instagr.am/"]),
   ("linkedin", ["linkedin.com/"]),
   ("facebook", ["facebook.com/", "fb.com/", "fb.watch/"]),
   ("twitter", ["twitter.com/", "x.com/"]),
   ("youtube", ["youtube.com/", "youtu.be/"]),
   ("tiktok", ["tiktok.com/"])]

/-- `re.search(pattern, url, re.IGNORECASE)` for one platform's alternatives. -/
def platformMatches (url : String) (alts : List String) : Bool :=
  alts.any (fun alt => containsSeq alt.data (url.data.map Char.toLower))

/-- cli.detect_platform: first pattern (in declaration order) that matches. -/
def detect_platform (url : String) : Option String :=
  (platformPatterns.find? (fun p => platformMatches url p.2)).map Prod.fst

/-- What `process_url` does before any extraction work: the three possible
dispatch outcomes. -/
inductive ProcessOutcome where
  | unknown (url : String)
  | handled (platform : String)
  | unsupported (platform : String) (url : String)
deriving DecidableEq

/-- The keys of the `handlers` dict in `process_url`. -/
def handlerPlatforms : List String :=
  ["instagram", "linkedin", "youtube", "facebook", "tiktok"]

/-- cli.process_url dispatch: detect the platform, then look it up in
`handlers`; a detected platform with no handler yields the error record. -/
def process_url (url : String) : ProcessOutcome :=
  match detect_platform url with
  | none => .unknown url
  | some p => if handlerPlatforms.contains p then .handled p else .unsupported p url

/-- The "error" field of the record `process_url` returns (none when a handler
ran). -/
def outcomeError : ProcessOutcome → Option String
  | .unknown _ => some "Unknown platform"
  | .handled _ => none
  | .unsupported p _ => some ("Unsupported platform: " ++ p)

end SMR

namespace SMR

/-- C6: frame sampling is adaptive: whenever duration / interval exceeds the
maximum frame count, the effective interval becomes duration / max_frames; in
particular for duration 600s, nominal interval 5s and max_frames 20, the
effective interval is 30s and at most 20 frames are produced, not 120. -/
theorem extract_frames_adaptive :
    (∀ (d i : ℚ) (m : ℕ), (m : ℚ) < d / i →
        effectiveInterval (some d) i m = d / m)
  ∧ effectiveInterval (some 600) 5 20 = 30
  ∧ extractFramesCount (some 600) 5 20 = 20
  ∧ extractFramesCount (some 600) 5 20 ≤ 20 := by
  refine ⟨?_, by norm_num [effectiveInterval],
          by norm_num [extractFramesCount, effectiveInterval, ffmpegFrameCount],
          by norm_num [extractFramesCount, effectiveInterval, ffmpegFrameCount]⟩
  intro d i m h
  have hd : d ≠ 0 := by
    rintro rfl
    rw [zero_div] at h
    exact absurd h (not_lt.mpr (by positivity))
  simp [effectiveInterval, hd, h]

/-- Witness for C6: the adaptive-interval clause applied at the spec's own
numbers, its hypothesis discharged there. -/
theorem extract_frames_adaptive_witness :
    effectiveInterval (some 600) 5 20 = 600 / 20 :=
  extract_frames_adaptive.1 600 5 20 (by norm_num)

/-- C8: every audio file below the 1000-byte silence threshold yields the
sentinel "[No audio or silent video]" and invokes neither the local nor the
remote transcriber. -/
theorem transcribe_audio_silent (sz : ℕ) (lr : Option String) (gr : String)
    (h : sz < 1000) :
    transcribe_audio sz lr gr = ("[No audio or silent video]", []) := by
  simp [transcribe_audio, h]

/-- Witness for C8: a 999-byte file with both transcribers available is still
skipped. -/
theorem transcribe_audio_silent_witness :
    transcribe_audio 999 (some "local text") "gemini text" =
      ("[No audio or silent video]", []) :=
  transcribe_audio_silent 999 (some "local text") "gemini text" (by decide)

/-- C10: every URL containing "twitter.com/" or "x.com/" (case-insensitively)
that matches none of the earlier platform patterns is detected as "twitter",
yet process_url has no handler for "twitter", so it returns the record with
error "Unsupported platform: twitter" instead of extracting anything. -/
theorem twitter_detected_but_unsupported (url : String)
    (h : platformMatches url ["twitter.com/", "x.com/"] = true)
    (h1 : platformMatches url ["instagram.com/", "instagr.am/"] = false)
    (h2 : platformMatches url ["linkedin.com/"] = false)
    (h3 : platformMatches url ["facebook.com/", "fb.com/", "fb.watch/"] = false) :
    detect_platform url = some "twitter"
  ∧ handlerPlatforms.contains "twitter" = false
  ∧ process_url url = .unsupported "twitter" url
  ∧ outcomeError (process_url url) = some "Unsupported platform: twitter" := by
  have hd : detect_platform url = some "twitter" := by
    simp [detect_platform, platformPatterns, List.find?, h, h1, h2, h3]
  have hc : handlerPlatforms.contains "twitter" = false := by rfl
  have hp : process_url url = .unsupported "twitter" url := by
    rw [process_url, hd]
    simp only [hc]
    simp
  exact ⟨hd, hc, hp, by rw [hp]; rfl⟩

/-- Witness for C10: a twitter status URL is detected but dispatched to the
unsupported-platform error record. -/
theorem twitter_detected_but_unsupported_witness :
    process_url "https://twitter.com/user/status/123" =
      .unsupported "twitter" "https://twitter.com/user/status/123" :=
  (twitter_detected_but_unsupported "https://twitter.com/user/status/123"
    (by decide) (by decide) (by decide) (by decide)).2.2.1

end SMR

namespace SMR

/- ### instagram._extract_images_from_html, grouping and selection stage
(instagram.py lines 81-111): from the list of scraped URL strings to the
deduplicated best-resolution list. -/

/-- Take the maximal leading run of digits, requiring at least one
(the regex `\d+`); returns the remainder. -/
def takeDigits1 (l : List Char) : Option (List Char × List Char) :=
  let ds := l.takeWhile Char.isDigit
  if ds = [] then none else some (ds, l.drop ds.length)

/-- Try to match `\d+_\d+_\d+_n\.jpg` at the head of `l` (the position just
after a `/`), returning the matched group. -/
def keyHere (l : List Char) : Option (List Char) :=
  match takeDigits1 l with
  | none => none
  | some (d1, r1) =>
    match r1 with
    | '_' :: r1' =>
      match takeDigits1 r1' with
      | none => none
      | some (d2, r2) =>
        match r2 with
        | '_' :: r2' =>
          match takeDigits1 r2' with
          | none => none
          | some (d3, r3) =>
            if beginsWith "_n.jpg".data r3 then
              some (d1 ++ '_' :: d2 ++ '_' :: d3 ++ "_n.jpg".data)
            else none
        | _ => none
    | _ => none

/-- `re.search(r'/(\d+_\d+_\d+_n\.jpg)', u)`: the group of the leftmost
match, used as the content key of a URL. -/
def extractKey : List Char → Option (List Char)
  | [] => none
  | c :: rest =>
    if c = '/' then
      match keyHere rest with
      | some k => some k
      | none => extractKey rest
    else extractKey rest

/-- `re.search("p1080x1080", u)`. -/
def hasP1080 (u : List Char) : Bool := containsSeq "p1080x1080".data u

/-- `re.search("config_width.*1080", u)`: an occurrence of "config_width"
followed, with no intervening newline, by an occurrence of "1080". -/
def hasCW1080 : List Char → Bool
  | [] => false
  | c :: cs =>
    (beginsWith "config_width".data (c :: cs) &&
      containsSeq "1080".data (((c :: cs).drop 12).takeWhile (fun x => x ≠ '\n'))) ||
    hasCW1080 cs

/-- `re.search("p750x750", u)`. -/
def hasP750 (u : List Char) : Bool := containsSeq "p750x750".data u

/-- A known-thumbnail URL: contains "s150x150" or "s240x240". -/
def isThumb (u : List Char) : Bool :=
  containsSeq "s150x150".data u || containsSeq "s240x240".data u

/-- Python `max(xs, key=len)` over `x :: xs`: the first element of maximal
length (ties keep the earlier element). -/
def maxByLen (x : List Char) (xs : List (List Char)) : List Char :=
  xs.foldl (fun best u => if best.length < u.length then u else best) x

/-- The per-group selection loop of `_extract_images_from_html`: first
candidate matching a resolution marker, in priority order, else the longest
non-thumbnail URL, else the longest URL of the group. -/
def pickBest (g : List (List Char)) : Option (List Char) :=
  match g.filter hasP1080 with
  | b :: _ => some b
  | [] =>
  match g.filter hasCW1080 with
  | b :: _ => some b
  | [] =>
  match g.filter hasP750 with
  | b :: _ => some b
  | [] =>
  match g.filter (fun u => !(isThumb u)) with
  | b :: bs => some (maxByLen b bs)
  | [] =>
  match g with
  | b :: bs => some (maxByLen b bs)
  | [] => none

/-- `image_groups.setdefault(key, []).append(u)` on an insertion-ordered
association list. -/
def addToGroups (gs : List (List Char × List (List Char))) (k : List Char)
    (u : List Char) : List (List Char × List (List Char)) :=
  match gs with
  | [] => [(k, [u])]
  | (k', us) :: rest =>
    if k' = k then (k', us ++ [u]) :: rest else (k', us) :: addToGroups rest k u

/-- The grouping loop: drop profile pictures ("2885-19") and URLs without a
recognizable content id, group the rest by content key in first-seen order. -/
def buildGroups (urls : List (List Char)) : List (List Char × List (List Char)) :=
  urls.foldl
    (fun gs u =>
      if containsSeq "2885-19".data u then gs
      else
        match extractKey u with
        | none => gs
        | some k => addToGroups gs k u)
    []

/-- The URL-list stage of `_extract_images_from_html`: group, then pick the
best candidate of each group, in first-seen group order. -/
def bestImages (urls : List (List Char)) : List (List Char) :=
  (buildGroups urls).filterMap (fun p => pickBest p.2)

/-- The image candidate resolver on strings (the spec's
`ImageCandidateResolver.resolve`). -/
def resolveImages (urls : List String) : List String :=
  (bestImages (urls.map String.data)).map String.mk

end SMR

namespace SMR

/-- Python `max(key=len)` returns a member of the iterable. -/
theorem maxByLen_mem (x : List Char) (xs : List (List Char)) :
    maxByLen x xs ∈ x :: xs := by
  induction xs generalizing x with
  | nil => simp [maxByLen]
  | cons y ys ih =>
    have he : maxByLen x (y :: ys) = maxByLen (if x.length < y.length then y else x) ys := rfl
    rw [he]
    rcases List.mem_cons.mp (ih (if x.length < y.length then y else x)) with h2 | h2
    · rw [h2]
      split
      · simp
      · simp
    · simp [List.mem_cons_of_mem, h2]

/-- Python `max(key=len)` returns an element of maximal length. -/
theorem maxByLen_le (x : List Char) (xs : List (List Char)) :
    ∀ u ∈ x :: xs, u.length ≤ (maxByLen x xs).length := by
  induction xs generalizing x with
  | nil => simp [maxByLen]
  | cons y ys ih =>
    intro u hu
    have he : maxByLen x (y :: ys) = maxByLen (if x.length < y.length then y else x) ys := rfl
    rw [he]
    rcases List.mem_cons.mp hu with h | h
    · subst h
      calc u.length ≤ (if u.length < y.length then y else u).length := by
            split <;> omega
        _ ≤ _ := ih _ _ (List.mem_cons_self _ _)
    · rcases List.mem_cons.mp h with h | h
      · subst h
        calc u.length ≤ (if x.length < u.length then u else x).length := by
              split <;> omega
          _ ≤ _ := ih _ _ (List.mem_cons_self _ _)
      · exact ih _ _ (List.mem_cons_of_mem _ h)

/-- The per-group selection always selects a member of the group. -/
theorem pickBest_mem (g : List (List Char)) (b : List Char)
    (h : pickBest g = some b) : b ∈ g := by
  unfold pickBest at h
  rcases h1 : g.filter hasP1080 with _ | ⟨b1, bs1⟩ <;> simp only [h1] at h
  case cons =>
    obtain rfl : b1 = b := Option.some.inj h
    exact List.mem_of_mem_filter (h1 ▸ List.mem_cons_self _ _)
  case nil =>
    rcases h2 : g.filter hasCW1080 with _ | ⟨b2, bs2⟩ <;> simp only [h2] at h
    case cons =>
      obtain rfl : b2 = b := Option.some.inj h
      exact List.mem_of_mem_filter (h2 ▸ List.mem_cons_self _ _)
    case nil =>
      rcases h3 : g.filter hasP750 with _ | ⟨b3, bs3⟩ <;> simp only [h3] at h
      case cons =>
        obtain rfl : b3 = b := Option.some.inj h
        exact List.mem_of_mem_filter (h3 ▸ List.mem_cons_self _ _)
      case nil =>
        rcases h4 : g.filter (fun u => !(isThumb u)) with _ | ⟨b4, bs4⟩ <;>
          simp only [h4] at h
        case cons =>
          obtain rfl : maxByLen b4 bs4 = b := Option.some.inj h
          exact List.mem_of_mem_filter (h4 ▸ maxByLen_mem b4 bs4)
        case nil =>
          rcases h5 : g with _ | ⟨b5, bs5⟩ <;> simp only [h5] at h
          case nil => exact absurd h (by simp)
          case cons =>
            obtain rfl : maxByLen b5 bs5 = b := Option.some.inj h
            exact h5 ▸ maxByLen_mem b5 bs5

/-- A non-empty group always yields a selection (the final fallback takes the
longest URL of the whole group). -/
theorem pickBest_isSome (g : List (List Char)) (hne : g ≠ []) :
    (pickBest g).isSome = true := by
  unfold pickBest
  rcases h1 : g.filter hasP1080 with _ | _
  case cons => rfl
  rcases h2 : g.filter hasCW1080 with _ | _
  case cons => rfl
  rcases h3 : g.filter hasP750 with _ | _
  case cons => rfl
  rcases h4 : g.filter (fun u => !(isThumb u)) with _ | _
  case cons => rfl
  rcases h5 : g with _ | ⟨b5, bs5⟩
  case nil => exact absurd h5 hne
  case cons => rfl

/-- Invariant of the grouping dict: keys are distinct, every group is
non-empty, and every member URL's content key is its group's key. -/
def GroupsInv (gs : List (List Char × List (List Char))) : Prop :=
  (gs.map Prod.fst).Nodup ∧
  ∀ p ∈ gs, p.2 ≠ [] ∧ ∀ u ∈ p.2, extractKey u = some p.1

theorem addToGroups_keys_mem (gs : List (List Char × List (List Char)))
    (k u k' : List Char) (h : k' ∈ (addToGroups gs k u).map Prod.fst) :
    k' ∈ gs.map Prod.fst ∨ k' = k := by
  induction gs with
  | nil =>
    simp only [addToGroups, List.map_cons, List.map_nil, List.mem_singleton] at h
    exact Or.inr h
  | cons p rest ih =>
    obtain ⟨k0, us⟩ := p
    by_cases hk : k0 = k
    · rw [addToGroups, if_pos hk] at h
      exact Or.inl h
    · rw [addToGroups, if_neg hk] at h
      simp only [List.map_cons, List.mem_cons] at h
      rcases h with h | h
      · exact Or.inl (by simp [h])
      · rcases ih h with h | h
        · exact Or.inl (List.mem_cons_of_mem _ h)
        · exact Or.inr h

theorem addToGroups_inv (gs : List (List Char × List (List Char)))
    (k u : List Char) (hku : extractKey u = some k)
    (hnd : (gs.map Prod.fst).Nodup)
    (hgood : ∀ p ∈ gs, p.2 ≠ [] ∧ ∀ v ∈ p.2, extractKey v = some p.1) :
    GroupsInv (addToGroups gs k u) := by
  induction gs with
  | nil =>
    refine ⟨by simp [addToGroups], ?_⟩
    intro p hp
    simp only [addToGroups, List.mem_singleton] at hp
    subst hp
    exact ⟨by simp, by simpa using hku⟩
  | cons p rest ih =>
    obtain ⟨k0, us⟩ := p
    simp only [List.map_cons, List.nodup_cons] at hnd
    obtain ⟨hk0, hndr⟩ := hnd
    have hgood0 := hgood (k0, us) (List.mem_cons_self _ _)
    have hgoodr : ∀ p ∈ rest, p.2 ≠ [] ∧ ∀ v ∈ p.2, extractKey v = some p.1 :=
      fun p hp => hgood p (List.mem_cons_of_mem _ hp)
    by_cases hk : k0 = k
    · constructor
      · rw [addToGroups, if_pos hk]
        simp only [List.map_cons, List.nodup_cons]
        exact ⟨hk0, hndr⟩
      · intro p hp
        rw [addToGroups, if_pos hk] at hp
        rcases List.mem_cons.mp hp with h | h
        · subst h
          refine ⟨by simp, ?_⟩
          intro v hv
          rcases List.mem_append.mp hv with h | h
          · exact hgood0.2 v h
          · simp only [List.mem_singleton] at h
            subst h
            rw [hku, hk]
        · exact hgoodr p h
    · obtain ⟨ihnd, ihgood⟩ := ih hndr hgoodr
      constructor
      · rw [addToGroups, if_neg hk]
        simp only [List.map_cons, List.nodup_cons]
        refine ⟨?_, ihnd⟩
        intro hmem
        rcases addToGroups_keys_mem rest k u k0 hmem with h | h
        · exact hk0 h
        · exact hk h
      · intro p hp
        rw [addToGroups, if_neg hk] at hp
        rcases List.mem_cons.mp hp with h | h
        · subst h; exact hgood0
        · exact ihgood p h

theorem buildGroups_inv (urls : List (List Char)) : GroupsInv (buildGroups urls) := by
  suffices h : ∀ gs, GroupsInv gs → GroupsInv (urls.foldl
      (fun gs u =>
        if containsSeq "2885-19".data u then gs
        else
          match extractKey u with
          | none => gs
          | some k => addToGroups gs k u) gs) by
    exact h [] ⟨by simp, by simp⟩
  induction urls with
  | nil => intro gs hgs; exact hgs
  | cons u rest ih =>
    intro gs hgs
    simp only [List.foldl_cons]
    apply ih
    by_cases hc : containsSeq "2885-19".data u = true
    · simpa [hc] using hgs
    · simp only [hc]
      rcases hk : extractKey u with _ | k
      · simpa using hgs
      · simpa using addToGroups_inv gs k u hk hgs.1 hgs.2

theorem filterMap_pickBest_pairwise (gs : List (List Char × List (List Char)))
    (hnd : (gs.map Prod.fst).Nodup)
    (hgood : ∀ p ∈ gs, ∀ v ∈ p.2, extractKey v = some p.1) :
    (gs.filterMap (fun p => pickBest p.2)).Pairwise
      (fun a b => extractKey a ≠ extractKey b) := by
  induction gs with
  | nil => simp
  | cons p rest ih =>
    simp only [List.map_cons, List.nodup_cons] at hnd
    obtain ⟨hp0, hndr⟩ := hnd
    have hgoodr : ∀ q ∈ rest, ∀ v ∈ q.2, extractKey v = some q.1 :=
      fun q hq => hgood q (List.mem_cons_of_mem _ hq)
    rcases hpb : pickBest p.2 with _ | b
    · simp only [List.filterMap_cons, hpb]
      exact ih hndr hgoodr
    · simp only [List.filterMap_cons, hpb]
      refine List.Pairwise.cons ?_ (ih hndr hgoodr)
      intro b' hb'
      obtain ⟨q, hq, hqb⟩ := List.mem_filterMap.mp hb'
      have h1 : extractKey b = some p.1 :=
        hgood p (List.mem_cons_self _ _) b (pickBest_mem _ _ hpb)
      have h2 : extractKey b' = some q.1 :=
        hgood q (List.mem_cons_of_mem _ hq) b' (pickBest_mem _ _ hqb)
      rw [h1, h2]
      intro hcontra
      apply hp0
      have hpq : p.1 = q.1 := by injection hcontra
      rw [hpq]
      exact List.mem_map.mpr ⟨q, hq, rfl⟩

theorem filterMap_pickBest_length (gs : List (List Char × List (List Char)))
    (hne : ∀ p ∈ gs, p.2 ≠ []) :
    (gs.filterMap (fun p => pickBest p.2)).length = gs.length := by
  induction gs with
  | nil => rfl
  | cons p rest ih =>
    have hs := pickBest_isSome p.2 (hne p (List.mem_cons_self _ _))
    rcases hpb : pickBest p.2 with _ | b
    · rw [hpb] at hs; simp at hs
    · simp only [List.filterMap_cons, hpb, List.length_cons]
      rw [ih (fun q hq => hne q (List.mem_cons_of_mem _ hq))]

/-- C2: for every input sequence of raw URL strings, the resolver's output
contains no two entries sharing the same content key, and each group
contributes exactly one output URL. -/
theorem resolve_unique_content_keys (urls : List String) :
    (resolveImages urls).Pairwise
      (fun a b => extractKey a.data ≠ extractKey b.data)
  ∧ (resolveImages urls).length = (buildGroups (urls.map String.data)).length := by
  obtain ⟨hnd, hgood⟩ := buildGroups_inv (urls.map String.data)
  constructor
  · unfold resolveImages
    rw [List.pairwise_map]
    exact filterMap_pickBest_pairwise _ hnd (fun p hp => (hgood p hp).2)
  · unfold resolveImages
    rw [List.length_map]
    exact filterMap_pickBest_length _ (fun p hp => (hgood p hp).1)

end SMR

namespace SMR

/-- C4 counterexample: an input consisting of a single fixed-size
thumbnail-marked URL (carrying a recognizable content id) is NOT mapped to
empty output — the thumbnail survives as its group's only candidate, so the
claim's "thumbnail-only input yields empty output" is false on the code. -/
theorem resolve_thumbnail_only_nonempty :
    containsSeq "s150x150".data
      ("https://scontent.cdninstagram.com/v/s150x150/123_456_789_n.jpg").data = true
  ∧ resolveImages ["https://scontent.cdninstagram.com/v/s150x150/123_456_789_n.jpg"] =
      ["https://scontent.cdninstagram.com/v/s150x150/123_456_789_n.jpg"]
  ∧ resolveImages ["https://scontent.cdninstagram.com/v/s150x150/123_456_789_n.jpg"] ≠ [] := by
  have h2 : resolveImages
      ["https://scontent.cdninstagram.com/v/s150x150/123_456_789_n.jpg"] =
      ["https://scontent.cdninstagram.com/v/s150x150/123_456_789_n.jpg"] := by rfl
  refine ⟨by rfl, h2, ?_⟩
  rw [h2]
  intro h
  exact List.noConfusion h

/-- C4 (amended): empty input maps to empty output, and an input consisting
only of non-content assets that are filtered before grouping — profile-picture
marked URLs ("2885-19") and URLs without a recognizable content id — maps to
empty output.  (Fixed-size thumbnail markers are NOT filtered before grouping;
they are only deprioritized during best-candidate selection.) -/
theorem resolve_filtered_empty :
    resolveImages [] = []
  ∧ ∀ urls : List String,
      (∀ u ∈ urls, containsSeq "2885-19".data u.data = true ∨ extractKey u.data = none) →
      resolveImages urls = [] := by
  refine ⟨rfl, ?_⟩
  intro urls h
  suffices hb : buildGroups (urls.map String.data) = [] by
    simp [resolveImages, bestImages, hb]
  induction urls with
  | nil => rfl
  | cons u rest ih =>
    have hu := h u (List.mem_cons_self _ _)
    have hrest := ih (fun v hv => h v (List.mem_cons_of_mem _ hv))
    have hstep :
        (if containsSeq "2885-19".data u.data then ([] : List (List Char × List (List Char)))
         else
           match extractKey u.data with
           | none => []
           | some k => addToGroups [] k u.data) = [] := by
      rcases hu with hu | hu
      · simp [hu]
      · rcases hc : containsSeq "2885-19".data u.data with _ | _ <;> simp [hu]
    simp only [List.map_cons]
    unfold buildGroups
    simp only [List.foldl_cons]
    rw [hstep]
    exact hrest

/-- Witness for C4 (amended): a profile-picture URL together with a keyless
URL resolves to the empty list. -/
theorem resolve_filtered_empty_witness :
    resolveImages
      ["https://scontent.cdninstagram.com/v/t51.2885-19/44884218_345707102882519_2446069589734326272_n.jpg",
       "https://static.cdninstagram.com/rsrc.php/v3/sprite.png"] = [] :=
  resolve_filtered_empty.2
    ["https://scontent.cdninstagram.com/v/t51.2885-19/44884218_345707102882519_2446069589734326272_n.jpg",
     "https://static.cdninstagram.com/rsrc.php/v3/sprite.png"]
    (by decide)

/-- C5: within one content-id group, a URL tagged with the 1080-resolution
marker is selected over untagged URLs (the selected URL always carries the
marker when any group member does); and when no priority marker matches any
member, the longest URL among the non-thumbnail candidates is selected. -/
theorem pickBest_priority :
    (∀ (g : List (List Char)) (u : List Char), u ∈ g → hasP1080 u = true →
        ∃ b, pickBest g = some b ∧ hasP1080 b = true)
  ∧ (∀ g : List (List Char),
        (∀ u ∈ g, hasP1080 u = false) → (∀ u ∈ g, hasCW1080 u = false) →
        (∀ u ∈ g, hasP750 u = false) →
        ∀ (v : List Char) (vs : List (List Char)),
          g.filter (fun u => !(isThumb u)) = v :: vs →
          ∃ b, pickBest g = some b ∧ b ∈ g.filter (fun u => !(isThumb u)) ∧
            ∀ u ∈ g.filter (fun u => !(isThumb u)), u.length ≤ b.length) := by
  constructor
  · intro g u hu hp
    rcases h1 : g.filter hasP1080 with _ | ⟨b, bs⟩
    · exact absurd (List.filter_eq_nil_iff.mp h1 u hu) (by simp [hp])
    · refine ⟨b, ?_, ?_⟩
      · unfold pickBest
        simp only [h1]
      · have hb : b ∈ g.filter hasP1080 := h1 ▸ List.mem_cons_self _ _
        exact (List.mem_filter.mp hb).2
  · intro g hA hB hC v vs hf
    have h1 : g.filter hasP1080 = [] :=
      List.filter_eq_nil_iff.mpr (fun a ha => by simp [hA a ha])
    have h2 : g.filter hasCW1080 = [] :=
      List.filter_eq_nil_iff.mpr (fun a ha => by simp [hB a ha])
    have h3 : g.filter hasP750 = [] :=
      List.filter_eq_nil_iff.mpr (fun a ha => by simp [hC a ha])
    refine ⟨maxByLen v vs, ?_, ?_, ?_⟩
    · unfold pickBest
      simp only [h1, h2, h3, hf]
    · rw [hf]; exact maxByLen_mem v vs
    · rw [hf]; exact maxByLen_le v vs

/-- Witness for C5: both selection clauses at concrete groups — a tagged
1080 variant beats an untagged one, and with no markers the longest
non-thumbnail URL wins. -/
theorem pickBest_priority_witness :
    (∃ b, pickBest
        ["https://a/v/p320x320/111_222_333_n.jpg".data,
         "https://a/v/p1080x1080/111_222_333_n.jpg".data] = some b ∧
      hasP1080 b = true)
  ∧ (∃ b, pickBest
        ["https://a/111_222_333_n.jpg".data,
         "https://a/extra/stuff/111_222_333_n.jpg".data] = some b ∧
      b ∈ (["https://a/111_222_333_n.jpg".data,
            "https://a/extra/stuff/111_222_333_n.jpg".data].filter
              (fun u => !(isThumb u))) ∧
      ∀ u ∈ (["https://a/111_222_333_n.jpg".data,
              "https://a/extra/stuff/111_222_333_n.jpg".data].filter
                (fun u => !(isThumb u))), u.length ≤ b.length) :=
  ⟨pickBest_priority.1
      ["https://a/v/p320x320/111_222_333_n.jpg".data,
       "https://a/v/p1080x1080/111_222_333_n.jpg".data]
      "https://a/v/p1080x1080/111_222_333_n.jpg".data (by decide) (by decide),
   pickBest_priority.2
      ["https://a/111_222_333_n.jpg".data,
       "https://a/extra/stuff/111_222_333_n.jpg".data]
      (by decide) (by decide) (by decide)
      "https://a/111_222_333_n.jpg".data
      ["https://a/extra/stuff/111_222_333_n.jpg".data] (by decide)⟩

end SMR

namespace SMR

/- ### linkedin.extract_linkedin_metadata (linkedin.py lines 61-104)
The three strategies perform network or subprocess I/O, so their raw
outcomes are passed in as a `LinkedInWorld`; the chain itself (ordering,
success tests, returned record, and which strategies were invoked) is
embedded from the source. -/

/-- Python truthiness of `d.get(key)` for a string-valued key: false when the
key is absent or its value is the empty string. -/
def truthyStr : Option String → Bool
  | none => false
  | some s => s ≠ ""

/-- The result dict of a LinkedIn extraction step (Python dicts are
heterogeneous; absent keys are `none`). -/
structure LiDict where
  method : String := ""
  error : Option String := none
  author : Option String := none
  author_url : Option String := none
  title : Option String := none
  embed_html : Option String := none
  provider : Option String := none
  description : Option String := none
  image : Option String := none
  images : Option (List String) := none
  text : Option String := none
  url : Option String := none
deriving DecidableEq

/-- The payload of a successful oEmbed JSON response. -/
structure OembedData where
  author_name : String
  author_url : String
  title : String
  html : String
  provider_name : String
deriving DecidableEq

/-- Raw outcome of the oEmbed HTTP request inside `get_linkedin_oembed`. -/
inductive OembedOutcome where
  | ok (d : OembedData)
  | httpError (code : Nat)
  | exc (msg : String)
deriving DecidableEq

/-- linkedin.get_linkedin_oembed (lines 30-58): builds the oEmbed dict,
tagging `method: "oembed"`; HTTP errors and exceptions land in `error`. -/
def get_linkedin_oembed (url : String) (o : OembedOutcome) : LiDict :=
  match o with
  | .ok d =>
    { method := "oembed", author := some d.author_name,
      author_url := some d.author_url, title := some d.title,
      embed_html := some d.html, provider := some d.provider_name }
  | .httpError code =>
    { method := "oembed", error := some ("HTTP " ++ toString code), url := some url }
  | .exc msg =>
    { method := "oembed", error := some msg, url := some url }

/-- The og:title / og:description / og:image values scraped by
`_fetch_og_tags`; a key is absent when its regex found no match (a matched
empty `content` is `some ""`). -/
structure OgData where
  title : Option String := none
  description : Option String := none
  image : Option String := none
deriving DecidableEq

/-- Raw outcome of `_fetch_og_tags` (lines 107-130): a parsed tag record, or
an exception during the fetch. -/
inductive OgOutcome where
  | ok (d : OgData)
  | exc
deriving DecidableEq

/-- The dict `_fetch_og_tags` returns on the non-exception path: scraped keys
plus `images = [image] if image else []`. -/
def fetch_og_tags (d : OgData) : LiDict :=
  { title := d.title, description := d.description, image := d.image,
    images := some (match d.image with
      | some i => if i ≠ "" then [i] else []
      | none => []) }

/-- Raw outcome of the `summarize` CLI subprocess in `summarize_url`
(linkedin.py lines 341-364). -/
inductive SummarizeOutcome where
  | notInstalled
  | ran (returncode : Int) (stdout stderr : String)
  | exc (msg : String)
deriving DecidableEq

/-- linkedin.summarize_url: text on a zero exit with non-blank stdout,
otherwise an error message. -/
def summarize_url (o : SummarizeOutcome) : LiDict :=
  match o with
  | .notInstalled => { method := "summarize", error := some "summarize CLI not installed" }
  | .ran rc out err =>
    if rc = 0 ∧ pyStrip out.data ≠ [] then
      { method := "summarize", text := some (String.mk (pyStrip out.data)) }
    else
      { method := "summarize",
        error := some ("exit " ++ toString rc ++ ": " ++ String.mk (err.data.take 200)) }
  | .exc msg => { method := "summarize", error := some msg }

/-- The outcomes of the three I/O strategies for one chain run. -/
structure LinkedInWorld where
  oembed : OembedOutcome
  og : OgOutcome
  summarize : SummarizeOutcome
deriving DecidableEq

/-- The fixed aggregate failure message of `extract_linkedin_metadata`. -/
def linkedinFailMsg : String :=
  "LinkedIn requires authentication for most content. Use --paste mode, screenshot, or screen recording instead."

/-- linkedin.extract_linkedin_metadata: oEmbed, then Open Graph, then the
summarize CLI, stopping at the first success.  The second component records
which strategies were invoked, in order; the first is `none` exactly when the
Python code would raise an uncaught `KeyError` (summarize dict with a falsy
error but no text key — only reachable when an exception's `str(e)` is empty). -/
def extract_linkedin_metadata (url : String) (w : LinkedInWorld) :
    Option LiDict × List String :=
  let result := get_linkedin_oembed url w.oembed
  if !(truthyStr result.error) then (some result, ["oembed"])
  else
    let ogStep : Option LiDict :=
      match w.og with
      | .exc => none
      | .ok d =>
        let og := fetch_og_tags d
        if truthyStr og.title || truthyStr og.description then
          some { og with method := "opengraph", url := some url }
        else none
    match ogStep with
    | some r => (some r, ["oembed", "opengraph"])
    | none =>
      let summary := summarize_url w.summarize
      if !(truthyStr summary.error) then
        match summary.text with
        | some t =>
          (some { method := "summarize", url := some url,
                  description := some (String.mk (t.data.take 2000)),
                  images := some [] },
           ["oembed", "opengraph", "summarize"])
        | none => (none, ["oembed", "opengraph", "summarize"])
      else
        (some { method := "failed", url := some url,
                error := some linkedinFailMsg, images := some [] },
         ["oembed", "opengraph", "summarize"])

/-- Success test of the first strategy: `not result.get("error")`. -/
def oembedOk (url : String) (w : LinkedInWorld) : Bool :=
  !(truthyStr (get_linkedin_oembed url w.oembed).error)

/-- Success test of the second strategy: no exception and a truthy og:title
or og:description. -/
def ogOk (w : LinkedInWorld) : Bool :=
  match w.og with
  | .exc => false
  | .ok d => truthyStr (fetch_og_tags d).title || truthyStr (fetch_og_tags d).description

/-- Success test of the third strategy: `not summary.get("error")`. -/
def summarizeOk (w : LinkedInWorld) : Bool :=
  !(truthyStr (summarize_url w.summarize).error)

end SMR

namespace SMR

/-- C1: the LinkedIn chain invokes oEmbed, then Open Graph, then the
summarize CLI, strictly in that order, stops at the first success, and tags
the returned record's method with the succeeding strategy's name; when the
first two fail and the third succeeds, the third strategy's payload is
returned with method "summarize". -/
theorem chain_strategy_order (url : String) (w : LinkedInWorld) :
    (oembedOk url w = true →
        extract_linkedin_metadata url w =
          (some (get_linkedin_oembed url w.oembed), ["oembed"])
      ∧ (get_linkedin_oembed url w.oembed).method = "oembed")
  ∧ (oembedOk url w = false → ogOk w = true →
        (extract_linkedin_metadata url w).2 = ["oembed", "opengraph"]
      ∧ ∃ r, (extract_linkedin_metadata url w).1 = some r ∧ r.method = "opengraph")
  ∧ (oembedOk url w = false → ogOk w = false → summarizeOk w = true →
        ∀ t, (summarize_url w.summarize).text = some t →
        extract_linkedin_metadata url w =
          (some { method := "summarize", url := some url,
                  description := some (String.mk (t.data.take 2000)),
                  images := some [] },
           ["oembed", "opengraph", "summarize"])) := by
  refine ⟨?_, ?_, ?_⟩
  · intro h1
    simp only [oembedOk] at h1
    constructor
    · simp only [extract_linkedin_metadata, h1, if_true]
    · cases w.oembed <;> rfl
  · intro h1 h2
    simp only [oembedOk] at h1
    rcases hog : w.og with d | _
    case exc => simp [ogOk, hog] at h2
    case ok =>
      simp only [ogOk, hog] at h2
      simp only [extract_linkedin_metadata, h1, Bool.false_eq_true, if_false, hog, h2, if_true]
      exact ⟨trivial, ⟨_, rfl, rfl⟩⟩
  · intro h1 h2 h3 t ht
    simp only [oembedOk] at h1
    simp only [summarizeOk] at h3
    rcases hog : w.og with d | _
    case ok =>
      simp only [ogOk, hog] at h2
      simp only [extract_linkedin_metadata, h1, Bool.false_eq_true, if_false, hog, h2,
        h3, if_true, ht]
    case exc =>
      simp only [extract_linkedin_metadata, h1, Bool.false_eq_true, if_false, hog,
        h3, if_true, ht]

/-- Witness for C1: three concrete worlds in which the first, second and
third strategy succeeds respectively, with the recorded attempt lists. -/
theorem chain_strategy_order_witness :
    (extract_linkedin_metadata "https://www.linkedin.com/posts/example"
        ⟨.ok ⟨"A. Author", "https://a", "Title", "<iframe>", "LinkedIn"⟩,
         .exc, .notInstalled⟩).2 = ["oembed"]
  ∧ (extract_linkedin_metadata "https://www.linkedin.com/posts/example"
        ⟨.httpError 404, .ok ⟨some "OG Title", none, none⟩, .notInstalled⟩).2 =
      ["oembed", "opengraph"]
  ∧ extract_linkedin_metadata "https://www.linkedin.com/posts/example"
        ⟨.httpError 404, .exc, .ran 0 "hello" ""⟩ =
      (some { method := "summarize",
              url := some "https://www.linkedin.com/posts/example",
              description := some (String.mk ("hello".data.take 2000)),
              images := some [] },
       ["oembed", "opengraph", "summarize"]) :=
  ⟨by rw [((chain_strategy_order "https://www.linkedin.com/posts/example"
      ⟨.ok ⟨"A. Author", "https://a", "Title", "<iframe>", "LinkedIn"⟩,
       .exc, .notInstalled⟩).1 (by decide)).1],
   ((chain_strategy_order "https://www.linkedin.com/posts/example"
      ⟨.httpError 404, .ok ⟨some "OG Title", none, none⟩, .notInstalled⟩).2.1
      (by decide) (by decide)).1,
   (chain_strategy_order "https://www.linkedin.com/posts/example"
      ⟨.httpError 404, .exc, .ran 0 "hello" ""⟩).2.2
      (by decide) (by decide) (by decide) "hello" rfl⟩

/-- C3 counterexample: with all three strategies failing (oEmbed HTTP 404,
Open Graph fetch raising, summarize CLI absent), the chain returns a fixed
guidance message that lists neither the oEmbed failure ("HTTP 404") nor the
summarize failure ("summarize CLI not installed"), and the returned record
carries no retryable flag — so the aggregate-failure description of the
claim is false on the code. -/
theorem chain_all_fail_counterexample :
    (get_linkedin_oembed "https://www.linkedin.com/posts/example"
        (.httpError 404)).error = some "HTTP 404"
  ∧ (summarize_url .notInstalled).error = some "summarize CLI not installed"
  ∧ (extract_linkedin_metadata "https://www.linkedin.com/posts/example"
        ⟨.httpError 404, .exc, .notInstalled⟩).1 =
      some { method := "failed",
             url := some "https://www.linkedin.com/posts/example",
             error := some linkedinFailMsg, images := some [] }
  ∧ containsSeq "404".data linkedinFailMsg.data = false
  ∧ containsSeq "summarize CLI not installed".data linkedinFailMsg.data = false := by
  exact ⟨rfl, rfl, rfl, by decide, by decide⟩

/-- C3 (amended): when every strategy fails, the chain still attempts all
three strategies in order (no failure aborts it early) and returns a failure
record with method "failed", a fixed guidance error message that is
independent of the individual attempts' failures, and no retryable flag. -/
theorem chain_all_fail (url : String) (w : LinkedInWorld)
    (h1 : oembedOk url w = false) (h2 : ogOk w = false)
    (h3 : summarizeOk w = false) :
    extract_linkedin_metadata url w =
      (some { method := "failed", url := some url,
              error := some linkedinFailMsg, images := some [] },
       ["oembed", "opengraph", "summarize"]) := by
  simp only [oembedOk] at h1
  simp only [summarizeOk] at h3
  rcases hog : w.og with d | _
  case ok =>
    simp only [ogOk, hog] at h2
    simp only [extract_linkedin_metadata, h1, Bool.false_eq_true, if_false, hog, h2, h3]
  case exc =>
    simp only [extract_linkedin_metadata, h1, Bool.false_eq_true, if_false, hog, h3]

/-- Witness for C3 (amended): the all-fail world evaluated through the
theorem. -/
theorem chain_all_fail_witness :
    extract_linkedin_metadata "https://www.linkedin.com/posts/example"
        ⟨.httpError 404, .exc, .notInstalled⟩ =
      (some { method := "failed",
              url := some "https://www.linkedin.com/posts/example",
              error := some linkedinFailMsg, images := some [] },
       ["oembed", "opengraph", "summarize"]) :=
  chain_all_fail "https://www.linkedin.com/posts/example"
    ⟨.httpError 404, .exc, .notInstalled⟩ (by decide) (by decide) (by decide)

end SMR

namespace SMR

/- ### linkedin.parse_paste (linkedin.py lines 141-201) -/

/-- Split on `'\n'` like Python `str.split("\n")` (an empty input yields one
empty field). -/
def splitNl : List Char → List (List Char)
  | [] => [[]]
  | c :: rest =>
    match splitNl rest with
    | [] => [[]]
    | h :: t => if c = '\n' then [] :: h :: t else (c :: h) :: t

/-- Join with `'\n'` like Python `"\n".join`. -/
def joinNl : List (List Char) → List Char
  | [] => []
  | [x] => x
  | x :: y :: t => x ++ '\n' :: joinNl (y :: t)

/-- The first line (after per-line strip) that is non-blank, with its index:
the author/headline scan of `parse_paste`. -/
def findFirstNonBlank : List (List Char) → Nat → Option (List Char × Nat)
  | [], _ => none
  | l :: rest, i =>
    if pyStrip l = [] then findFirstNonBlank rest (i + 1)
    else some (pyStrip l, i)

/-- The header scan of `parse_paste`: author is the first non-blank stripped
line, headline the second, and `body_start` the index just after the last of
them that was found. -/
def headerInfo (lines : List (List Char)) : List Char × List Char × Nat :=
  match findFirstNonBlank lines 0 with
  | none => ([], [], 0)
  | some (a, ia) =>
    match findFirstNonBlank (lines.drop (ia + 1)) (ia + 1) with
    | none => (a, [], ia + 1)
    | some (h, ih) => (a, h, ih + 1)

/-- `re.findall(r"#(\w+)", text)`-style scan (`marker` is `'#'` or `'@'`):
`cur = some w` while collecting the reversed word after a marker. -/
def findTagsAux (marker : Char) (cur : Option (List Char)) :
    List Char → List (List Char)
  | [] =>
    match cur with
    | some w => if w ≠ [] then [w.reverse] else []
    | none => []
  | c :: rest =>
    match cur with
    | some w =>
      if isWordChar c then findTagsAux marker (some (c :: w)) rest
      else
        (if w ≠ [] then [w.reverse] else []) ++
        (if c = marker then findTagsAux marker (some []) rest
         else findTagsAux marker none rest)
    | none =>
      if c = marker then findTagsAux marker (some []) rest
      else findTagsAux marker none rest

/-- The keyword alternatives of the engagement-metric regex
`(likes?|comments?|reposts?|reactions?|shares?)`: since the optional `s` and
the rest of the line are consumed by `.*$` anyway, a case-insensitive stem
prefix decides whether the group matches. -/
def engKeywords : List (List Char) :=
  ["like".data, "comment".data, "repost".data, "reaction".data, "share".data]

/-- Drop up to (but not including) the next `'\n'`: the `.*$` tail of a
MULTILINE match ends at the end of the current line. -/
def dropLine : List Char → List Char
  | [] => []
  | c :: rest => if c = '\n' then c :: rest else dropLine rest

/-- Try to match `\d+\s*(likes?|...).*$` at `l` (the position just after a
`'\n'`); returns the remaining input after the match. -/
def engMatch (l : List Char) : Option (List Char) :=
  let ds := l.takeWhile Char.isDigit
  if ds = [] then none
  else
    let r2 := (l.drop ds.length).dropWhile isPyWs
    if engKeywords.any (fun k => beginsWithCI k r2) then some (dropLine r2)
    else none

/-- One step of `re.sub(r"\n\d+\s*(likes?|...).*$", "", body, MULTILINE)`:
scan for a `'\n'` where the engagement shape matches, delete the match, and
continue after it.  Structured with fuel (one unit per consumed character) so
the definition stays structurally recursive. -/
def stripEngAux : Nat → List Char → List Char
  | 0, l => l
  | _ + 1, [] => []
  | fuel + 1, c :: rest =>
    if c = '\n' then
      match engMatch rest with
      | some rem => stripEngAux fuel rem
      | none => c :: stripEngAux fuel rest
    else c :: stripEngAux fuel rest

/-- The full engagement-metric substitution over a body string. -/
def stripEng (l : List Char) : List Char :=
  stripEngAux l.length l

/-- Does `re.search(r"\.{3}\s*(see )?more\s*$", body, IGNORECASE)` match at
this position?  Without MULTILINE the final `\s*$` forces the rest of the
string after "more" to be whitespace. -/
def seeMoreAt (l : List Char) : Bool :=
  match l with
  | '.' :: '.' :: '.' :: r =>
    let r1 := r.dropWhile isPyWs
    let r2 := if beginsWithCI "see ".data r1 then r1.drop 4 else r1
    if beginsWithCI "more".data r2 then ((r2.drop 4).dropWhile isPyWs).isEmpty
    else false
  | _ => false

/-- `re.sub(r"\.{3}\s*(see )?more\s*$", "", body, IGNORECASE)`: the leftmost
match (if any) extends to the end of the string, so everything from there is
removed. -/
def stripSeeMore : List Char → List Char
  | [] => []
  | c :: rest => if seeMoreAt (c :: rest) then [] else c :: stripSeeMore rest

/-- The structured record `parse_paste` returns (hashtags and mentions are
Python lists of strings). -/
structure PasteResult where
  author : String
  headline : String
  body : String
  hashtags : List String
  mentions : List String
deriving DecidableEq

/-- linkedin.parse_paste: author/headline scan, body join, tag extraction
over the original text, engagement-metric and see-more stripping. -/
def parse_paste (text : String) : PasteResult :=
  let lines := splitNl (pyStrip text.data)
  let hi := headerInfo lines
  let body0 := pyStrip (joinNl (lines.drop hi.2.2))
  let body1 := stripEng body0
  let body2 := stripSeeMore body1
  { author := String.mk hi.1
    headline := String.mk hi.2.1
    body := String.mk (pyStrip body2)
    hashtags := (findTagsAux '#' none text.data).map String.mk
    mentions := (findTagsAux '@' none text.data).map String.mk }

end SMR

namespace SMR

theorem dropWhile_eq_self_of_head (l : List Char)
    (h : ∀ c, l.head? = some c → isPyWs c = false) :
    l.dropWhile isPyWs = l := by
  cases l with
  | nil => rfl
  | cons c rest =>
    have hc := h c rfl
    simp [List.dropWhile_cons, hc]

theorem pyStrip_eq_self (l : List Char)
    (hhead : ∀ c, l.head? = some c → isPyWs c = false)
    (hlast : ∀ c, l.getLast? = some c → isPyWs c = false) :
    pyStrip l = l := by
  unfold pyStrip
  rw [dropWhile_eq_self_of_head l hhead]
  rw [dropWhile_eq_self_of_head l.reverse
    (fun c hc => hlast c ((List.head?_reverse l) ▸ hc))]
  exact List.reverse_reverse l

theorem splitNl_ne_nil (l : List Char) : splitNl l ≠ [] := by
  cases l with
  | nil => simp [splitNl]
  | cons c rest =>
    simp only [splitNl]
    rcases splitNl rest with _ | ⟨x, t⟩
    · simp
    · by_cases hc : c = '\n' <;> simp [hc]

theorem splitNl_no_nl (e : List Char) (he : ∀ c ∈ e, c ≠ '\n') :
    splitNl e = [e] := by
  induction e with
  | nil => rfl
  | cons c rest ih =>
    have hrest := ih (fun x hx => he x (List.mem_cons_of_mem _ hx))
    have hc : c ≠ '\n' := he c (List.mem_cons_self _ _)
    simp only [splitNl, hrest, if_neg hc]

theorem splitNl_append (x rest : List Char) (hx : ∀ c ∈ x, c ≠ '\n') :
    splitNl (x ++ '\n' :: rest) = x :: splitNl rest := by
  induction x with
  | nil =>
    simp only [List.nil_append, splitNl]
    rcases hs : splitNl rest with _ | ⟨h, t⟩
    · exact absurd hs (splitNl_ne_nil rest)
    · simp
  | cons c x' ih =>
    have hc : c ≠ '\n' := hx c (List.mem_cons_self _ _)
    have ih' := ih (fun d hd => hx d (List.mem_cons_of_mem _ hd))
    have hstep : splitNl (c :: (x' ++ '\n' :: rest)) =
        match splitNl (x' ++ '\n' :: rest) with
        | [] => [[]]
        | h :: t => if c = '\n' then [] :: h :: t else (c :: h) :: t := rfl
    rw [List.cons_append, hstep, ih']
    simp [hc]

theorem stripEngAux_nil : ∀ f, stripEngAux f [] = []
  | 0 => rfl
  | _ + 1 => rfl

theorem stripEngAux_append (b e : List Char) (hb : ∀ c ∈ b, c ≠ '\n')
    (he : engMatch e = some []) :
    ∀ f, (b ++ '\n' :: e).length ≤ f → stripEngAux f (b ++ '\n' :: e) = b := by
  induction b with
  | nil =>
    intro f hf
    simp only [List.nil_append, List.length_cons] at hf
    cases f with
    | zero => omega
    | succ f' =>
      simp only [List.nil_append, stripEngAux, if_pos rfl, he]
      exact stripEngAux_nil f'
  | cons c b' ih =>
    intro f hf
    have hc : c ≠ '\n' := hb c (List.mem_cons_self _ _)
    simp only [List.cons_append, List.length_cons] at hf
    cases f with
    | zero => omega
    | succ f' =>
      simp only [List.cons_append, stripEngAux, if_neg hc]
      exact congrArg (fun t => c :: t)
        (ih (fun d hd => hb d (List.mem_cons_of_mem _ hd)) f' (by omega))

/-- A trailing line matching the engagement-metric shape is stripped as the
final `re.sub` match of the body. -/
theorem stripEng_append (b e : List Char) (hb : ∀ c ∈ b, c ≠ '\n')
    (he : engMatch e = some []) :
    stripEng (b ++ '\n' :: e) = b :=
  stripEngAux_append b e hb he _ (Nat.le_refl _)

/-- A single line as Python paste conventions produce it: non-empty, without
embedded newlines, and with no leading or trailing whitespace. -/
def CleanLine (l : List Char) : Prop :=
  l ≠ [] ∧ (∀ c ∈ l, c ≠ '\n') ∧
  l.head?.all (fun c => !(isPyWs c)) = true ∧
  l.getLast?.all (fun c => !(isPyWs c)) = true

theorem head_all_forall (l : List Char)
    (h : l.head?.all (fun c => !(isPyWs c)) = true) :
    ∀ c, l.head? = some c → isPyWs c = false := by
  intro c hc
  rw [hc] at h
  simpa using h

theorem getLast_all_forall (l : List Char)
    (h : l.getLast?.all (fun c => !(isPyWs c)) = true) :
    ∀ c, l.getLast? = some c → isPyWs c = false := by
  intro c hc
  rw [hc] at h
  simpa using h

theorem parse_paste_structured (a h b e : List Char)
    (ha : CleanLine a) (hh : CleanLine h) (hb : CleanLine b)
    (hene : e ≠ []) (henl : ∀ c ∈ e, c ≠ '\n')
    (helast : e.getLast?.all (fun c => !(isPyWs c)) = true)
    (heng : engMatch e = some [])
    (hsee : stripSeeMore b = b) :
    (parse_paste (String.mk (a ++ '\n' :: (h ++ '\n' :: (b ++ '\n' :: e))))).author =
        String.mk a
  ∧ (parse_paste (String.mk (a ++ '\n' :: (h ++ '\n' :: (b ++ '\n' :: e))))).headline =
        String.mk h
  ∧ (parse_paste (String.mk (a ++ '\n' :: (h ++ '\n' :: (b ++ '\n' :: e))))).body =
        String.mk b := by
  have hah := head_all_forall a ha.2.2.1
  have hal := getLast_all_forall a ha.2.2.2
  have hhh := head_all_forall h hh.2.2.1
  have hhl := getLast_all_forall h hh.2.2.2
  have hbh := head_all_forall b hb.2.2.1
  have hbl := getLast_all_forall b hb.2.2.2
  have hel := getLast_all_forall e helast
  have hdata : (String.mk (a ++ '\n' :: (h ++ '\n' :: (b ++ '\n' :: e)))).data =
      a ++ '\n' :: (h ++ '\n' :: (b ++ '\n' :: e)) := rfl
  have hstrip_t : pyStrip (a ++ '\n' :: (h ++ '\n' :: (b ++ '\n' :: e))) =
      a ++ '\n' :: (h ++ '\n' :: (b ++ '\n' :: e)) := by
    apply pyStrip_eq_self
    · intro c hc
      rw [List.head?_append_of_ne_nil a ha.1] at hc
      exact hah c hc
    · intro c hc
      rcases e with _ | ⟨c0, e'⟩
      · exact absurd rfl hene
      · have h1 := List.getLast?_append_cons a '\n' (h ++ '\n' :: (b ++ '\n' :: (c0 :: e')))
        have h2 := List.getLast?_append_cons ('\n' :: h) '\n' (b ++ '\n' :: (c0 :: e'))
        have h3 := List.getLast?_append_cons ('\n' :: b) '\n' (c0 :: e')
        have h4 := List.getLast?_append_cons ['\n'] c0 e'
        rw [List.cons_append] at h2 h3
        rw [List.cons_append, List.nil_append] at h4
        rw [h1, h2, h3, h4] at hc
        exact hel c hc
  have hsplit : splitNl (a ++ '\n' :: (h ++ '\n' :: (b ++ '\n' :: e))) = [a, h, b, e] := by
    rw [splitNl_append a _ ha.2.1, splitNl_append h _ hh.2.1, splitNl_append b _ hb.2.1,
        splitNl_no_nl e henl]
  have hstrip_a : pyStrip a = a := pyStrip_eq_self a hah hal
  have hstrip_h : pyStrip h = h := pyStrip_eq_self h hhh hhl
  have hstrip_b : pyStrip b = b := pyStrip_eq_self b hbh hbl
  have hheader : headerInfo [a, h, b, e] = (a, h, 2) := by
    simp only [headerInfo, findFirstNonBlank, hstrip_a, hstrip_h, if_neg ha.1,
      List.drop_succ_cons, List.drop_zero, if_neg hh.1]
  have hstrip_be : pyStrip (b ++ '\n' :: e) = b ++ '\n' :: e := by
    apply pyStrip_eq_self
    · intro c hc
      rw [List.head?_append_of_ne_nil b hb.1] at hc
      exact hbh c hc
    · intro c hc
      rcases e with _ | ⟨c0, e'⟩
      · exact absurd rfl hene
      · have h3 := List.getLast?_append_cons b '\n' (c0 :: e')
        have h4 := List.getLast?_append_cons ['\n'] c0 e'
        rw [List.cons_append, List.nil_append] at h4
        rw [h3, h4] at hc
        exact hel c hc
  have hbody1 : stripEng (b ++ '\n' :: e) = b := stripEng_append b e hb.2.1 heng
  simp only [parse_paste, hdata, hstrip_t, hsplit, hheader, List.drop_succ_cons,
    List.drop_zero, joinNl, hstrip_be, hbody1, hsee, hstrip_b]
  exact ⟨by trivial, by trivial, by trivial⟩

/-- C9: parse_paste("Jane Doe\nSenior Engineer\nHello world\n42 likes") yields
author "Jane Doe", headline "Senior Engineer", body "Hello world" with the
engagement line stripped and empty hashtag and mention collections; and in
general, for a paste of clean author, headline and body lines followed by a
trailing engagement-metric line, the first non-blank line becomes the author,
the second the headline, and the trailing engagement line is stripped from
the body. -/
theorem parse_paste_spec :
    parse_paste "Jane Doe\nSenior Engineer\nHello world\n42 likes" =
      { author := "Jane Doe", headline := "Senior Engineer", body := "Hello world",
        hashtags := [], mentions := [] }
  ∧ (∀ a h b e : List Char,
      CleanLine a → CleanLine h → CleanLine b →
      e ≠ [] → (∀ c ∈ e, c ≠ '\n') →
      e.getLast?.all (fun c => !(isPyWs c)) = true →
      engMatch e = some [] → stripSeeMore b = b →
      (parse_paste (String.mk (a ++ '\n' :: (h ++ '\n' :: (b ++ '\n' :: e))))).author =
          String.mk a
      ∧ (parse_paste (String.mk (a ++ '\n' :: (h ++ '\n' :: (b ++ '\n' :: e))))).headline =
          String.mk h
      ∧ (parse_paste (String.mk (a ++ '\n' :: (h ++ '\n' :: (b ++ '\n' :: e))))).body =
          String.mk b) :=
  ⟨by decide,
   fun a h b e ha hh hb hene henl helast heng hsee =>
     parse_paste_structured a h b e ha hh hb hene henl helast heng hsee⟩

/-- Witness for C9: the general clause applied to a second concrete paste,
all hypotheses discharged by evaluation. -/
theorem parse_paste_spec_witness :
    (parse_paste "Author Line\nHeadline Line\nBody text here\n7 reposts").author =
        "Author Line"
  ∧ (parse_paste "Author Line\nHeadline Line\nBody text here\n7 reposts").headline =
        "Headline Line"
  ∧ (parse_paste "Author Line\nHeadline Line\nBody text here\n7 reposts").body =
        "Body text here" :=
  parse_paste_spec.2 "Author Line".data "Headline Line".data "Body text here".data
    "7 reposts".data
    (by refine ⟨by decide, by decide, by decide, by decide⟩)
    (by refine ⟨by decide, by decide, by decide, by decide⟩)
    (by refine ⟨by decide, by decide, by decide, by decide⟩)
    (by decide) (by decide) (by decide) (by decide) (by decide)

end SMR
